import Mathlib

/-!
Shallow embedding of `src/index.js`, a batch job that compares two
language-detection methods against the language labels of a batch of
documents, and proofs about it.

Modelling conventions:
* JS strings are modelled as `List Char`; `.length` is `List.length` and
  `.slice(0, n)` is `List.take n`.
* The S3 storage backend is an abstract function from page number to a fetch
  outcome; `GetObjectCommand` on key `TextPreview/<fileFingerprint>/<page>.txt`
  for a fixed fingerprint is the application of that function to `page`.
  A backend throwing an error with `Code === "NoSuchKey"` is `noSuchKey`;
  any other thrown error is `err`.
* The `while` loop of `getTextPreview` need not terminate (an infinite storage
  whose pages normalize to `""` never grows the accumulator), so the loop is
  written with explicit fuel; `none` means the loop has not finished within
  the given fuel.
* Fallible JS code (thrown `TypeError`s, propagated storage errors) is
  modelled with `Except`.
-/

namespace PdLangClassifier

/-- `MAX_TEXT_LENGTH` from the source. -/
def MAX_TEXT_LENGTH : Nat := 24000

/-! ### Normalization (`getTextPreview`, the four `replaceAll` calls)

The page text is piped through four `replaceAll` calls, in order:
1. `/ +/g → " "` : collapse each run of spaces to a single space;
2. `/(^ +| +$)/g → ""` : strip the leading and the trailing run of spaces;
3. `/(\r?\n?\t?)+/g → ""` : delete every carriage-return/newline/tab;
4. `/https?.*?(?= |$)/g → ""` : from each occurrence of `http`, delete up to
   (excluding) the next space, or to the end of the string; the lazy `.`
   cannot cross a line terminator, and if a line terminator is hit before a
   space the match at that start position fails and scanning resumes one
   character further on.
-/

/-- Step 1, `/ +/g → " "`: keep a space only when the previous kept character
was not a space, i.e. keep the first space of each run.  The `Bool` argument
records whether the previously emitted character was a space. -/
def collapseSpacesAux : Bool → List Char → List Char
  | _, [] => []
  | prev, c :: cs =>
    if c = ' ' then
      if prev then collapseSpacesAux true cs
      else ' ' :: collapseSpacesAux true cs
    else c :: collapseSpacesAux false cs

/-- Step 1 entry point. -/
def collapseSpaces (s : List Char) : List Char := collapseSpacesAux false s

/-- Step 2, `/(^ +| +$)/g → ""`: the two alternatives of the regex remove the
leading run of spaces (anchored at `^`) and the trailing run (anchored at
`$`). -/
def trimSpaces (s : List Char) : List Char :=
  ((s.dropWhile (· = ' ')).reverse.dropWhile (· = ' ')).reverse

/-- The characters deleted by step 3. -/
def isCtl (c : Char) : Bool := c = '\r' || c = '\n' || c = '\t'

/-- Step 3, `/(\r?\n?\t?)+/g → ""`: any maximal run of `\r`/`\n`/`\t`
characters is matched by the regex and replaced by nothing, so every such
character is deleted. -/
def removeCtl (s : List Char) : List Char := s.filter (fun c => !(isCtl c))

/-- Characters the JS `.` (no `s` flag) can match: everything except the
line terminators `\n`, `\r`, U+2028 and U+2029. -/
def dotMatches (c : Char) : Bool :=
  !(c = '\n' || c = '\r' || c = Char.ofNat 0x2028 || c = Char.ofNat 0x2029)

/-- The `.*?(?= |$)` part of the URL regex, starting right after `http`:
consume characters lazily until the lookahead sees a space (left in place) or
the end of the string; fail (`none`) if a character `.` cannot match shows up
first.  Returns the unconsumed remainder.  The optional `s` of `https?` is
absorbed here: whether `s?` or the lazy `.` consumes an `s`, the deleted
substring is the same. -/
def urlScan : List Char → Option (List Char)
  | [] => some []
  | c :: cs => if c = ' ' then some (c :: cs)
               else if dotMatches c then urlScan cs
               else none

/-- One attempt of the regex `https?.*?(?= |$)` at the start of `l`:
`l` must start with the literal `http`, then `urlScan` runs after it. -/
def urlMatch (l : List Char) : Option (List Char) :=
  match l with
  | 'h' :: 't' :: 't' :: 'p' :: rest => urlScan rest
  | _ => none

/-- Step 4, `/https?.*?(?= |$)/g → ""`, scanning left to right: where a match
starts, the matched substring is deleted and scanning resumes at the
remainder; otherwise the character is kept and scanning moves on by one.
The fuel argument makes the recursion structural; since every step consumes
at least one character of the list per unit of fuel, fuel `l.length` is
enough (`| 0, l => l` is then never reached on a nonempty list). -/
def stripUrlsAux : Nat → List Char → List Char
  | 0, l => l
  | _, [] => []
  | fuel + 1, c :: cs =>
    match urlMatch (c :: cs) with
    | some rest => stripUrlsAux fuel rest
    | none => c :: stripUrlsAux fuel cs

/-- Step 4 entry point. -/
def stripUrls (s : List Char) : List Char := stripUrlsAux s.length s

/-- The whole normalization chain applied to one page of text, in source
order: collapse space runs, strip leading/trailing spaces, delete
carriage-return/newline/tab characters, strip URL-like substrings. -/
def normalize (s : List Char) : List Char :=
  stripUrls (removeCtl (trimSpaces (collapseSpaces s)))

/-! ### `getTextPreview` -/

/-- Outcome of one `client.send(GetObjectCommand …)` for one page. -/
inductive FetchResult where
  | ok (body : List Char)
  | noSuchKey
  | err (e : String)
deriving DecidableEq

/-- The `while` loop of `getTextPreview`.  State: remaining fuel, current
`page` (starts at 1), accumulated `textPreview`.  On `ok` the normalized page
text is appended and `page` incremented; on `noSuchKey` the loop breaks and
the accumulator is sliced to `MAX_TEXT_LENGTH`; any other error is rethrown.
The returned pair also records the page number at which the loop stopped
(the JS function returns only the string; the page index is kept so that the
stopping condition can be stated). -/
def getTextPreviewGo (st : Nat → FetchResult) :
    Nat → Nat → List Char → Option (Except String (List Char × Nat))
  | 0, _, _ => none
  | fuel + 1, page, acc =>
    if acc.length < MAX_TEXT_LENGTH then
      match st page with
      | FetchResult.ok body => getTextPreviewGo st fuel (page + 1) (acc ++ normalize body)
      | FetchResult.noSuchKey => some (Except.ok (acc.take MAX_TEXT_LENGTH, page))
      | FetchResult.err e => some (Except.error e)
    else some (Except.ok (acc.take MAX_TEXT_LENGTH, page))

/-- `getTextPreview` with the stop page kept: the loop starts at page 1 with
an empty accumulator. -/
def getTextPreviewRun (st : Nat → FetchResult) (fuel : Nat) :
    Option (Except String (List Char × Nat)) :=
  getTextPreviewGo st fuel 1 []

/-- `getTextPreview` as in the source: just the preview string. -/
def getTextPreview (st : Nat → FetchResult) (fuel : Nat) :
    Option (Except String (List Char)) :=
  (getTextPreviewRun st fuel).map (fun r => r.map Prod.fst)

/-! ### `detectLanguage`

The service call `POST /language-detection` answers with JSON
`{language: [{codex: …}, …]}`; the code takes `language[0].codex` (a crash —
modelled as `none` — if the candidate list is empty).  The legacy detector
`langdetect.detect(textPreview, 1)` yields a ranked list of
`[languageName, score]` pairs; the code takes `…?.[0]?.[0] || ""`, i.e. the
first language name or `""`.  The score is never read, so the legacy result
is modelled as the ranked list of language names. -/

/-- One candidate of the detection-service response. -/
structure Codex where
  codex : String
deriving DecidableEq

/-- `detectLanguage`, as a function of the two detector responses for the
given text: `{new: language[0].codex, old: legacy[0][0] || ""}`. -/
def detectLanguage (serviceLanguage : List Codex) (legacyGuesses : List String) :
    Option (String × String) :=
  (serviceLanguage.head?).map (fun c => (c.codex, legacyGuesses.headD ""))

/-! ### Result records and `aggregateResults` -/

/-- The per-row record assembled inside `runJob` (all nine fields).  `id`,
`fileurl` and `name` come from the CSV row, so all are strings. -/
structure ResultRecord where
  id : String
  name : String
  fileurl : String
  currentLanguage : String
  expectedLanguage : String
  newDetectedLanguage : String
  oldDetectedLanguage : String
  textPreviewLength : Nat
  textPreview : List Char
deriving DecidableEq

/-- The shape produced by the `results.map(…)` at the top of
`aggregateResults`: only six of the nine fields are kept. -/
structure NewResult where
  id : String
  name : String
  currentLanguage : String
  expectedLanguage : String
  newDetectedLanguage : String
  oldDetectedLanguage : String
deriving DecidableEq

/-- The destructuring projection in `aggregateResults`. -/
def toNewResult (r : ResultRecord) : NewResult :=
  { id := r.id, name := r.name,
    currentLanguage := r.currentLanguage, expectedLanguage := r.expectedLanguage,
    newDetectedLanguage := r.newDetectedLanguage,
    oldDetectedLanguage := r.oldDetectedLanguage }

/-- The value returned by `aggregateResults` (the three bucket writes to
`<outputFolder>/…json` persist exactly these three lists and are external
filesystem effects). -/
structure Buckets where
  differentResults : List NewResult
  sameAsCurrent : List NewResult
  sameAsExpected : List NewResult
deriving DecidableEq

/-- `aggregateResults`: project every record, then three independent
filters. -/
def aggregateResults (results : List ResultRecord) : Buckets :=
  let newResults := results.map toNewResult
  { differentResults := newResults.filter (fun r =>
      r.expectedLanguage != r.newDetectedLanguage &&
      r.currentLanguage != r.newDetectedLanguage)
    sameAsCurrent := newResults.filter (fun r =>
      r.currentLanguage == r.newDetectedLanguage)
    sameAsExpected := newResults.filter (fun r =>
      r.expectedLanguage == r.newDetectedLanguage) }

/-! ### `getSample`

`results.sort(() => 0.5 - Math.random())` sorts in place with a random
comparator; whatever comparisons the random comparator answers, the array
after sorting is a permutation of its contents.  The sample is the first
`sampleSize` elements of that permutation, so `getSample` is modelled on the
already-shuffled list and theorems quantify over every permutation. -/

/-- `getSample` after the shuffle: `shuffled.slice(0, sampleSize)` with
`sampleSize = 25`. -/
def getSample (shuffled : List NewResult) : List NewResult :=
  shuffled.take 25

/-! ### One row of `runJob`

For one CSV row, `runJob` fetches the preview, runs `detectLanguage` and
assembles the nine-field record; `currentLanguage`/`expectedLanguage` come
from the job's `fileData` entry. -/

/-- One CSV row (`csvtojson` yields string fields). -/
structure SourceRow where
  id : String
  fileurl : String
  name : String
deriving DecidableEq

/-- The body of the `files.map(async (file) => …)` callback for one row:
fetch the preview from storage, detect, build the record.  `none` models a
crash or an unfinished fetch (no fuel); the record is built only when both
steps succeed. -/
def runJobRow (st : Nat → FetchResult) (fuel : Nat) (serviceLanguage : List Codex)
    (legacyGuesses : List String) (currentLanguage expectedLanguage : String)
    (row : SourceRow) : Option ResultRecord :=
  match getTextPreview st fuel with
  | some (Except.ok textPreview) =>
    (detectLanguage serviceLanguage legacyGuesses).map (fun p =>
      { id := row.id, name := row.name, fileurl := row.fileurl,
        currentLanguage := currentLanguage, expectedLanguage := expectedLanguage,
        newDetectedLanguage := p.1, oldDetectedLanguage := p.2,
        textPreviewLength := textPreview.length, textPreview := textPreview })
  | _ => none

/-! ### `countManualAnalysisResults`

The `result` object literal has the keys `newMethod` and `oldMethod`, each a
`{correct, incorrect}` pair, and is modelled as a keyed association list so
that the property accesses in the loop can be modelled as written: the loop
body does `result.new.correct++` / `result.new.incorrect++` and
`result.old.correct++` / `result.old.incorrect++`, reading the keys `new`
and `old`.  Reading an absent key yields `undefined`, and the member access
on `undefined` throws a `TypeError`. -/

/-- A `{correct, incorrect}` counter pair. -/
structure TallyPair where
  correct : Nat
  incorrect : Nat
deriving DecidableEq

/-- A JS object holding counter pairs under string keys. -/
def TallyObj : Type := List (String × TallyPair)

instance : DecidableEq TallyObj := by unfold TallyObj; infer_instance

/-- The `result` object literal: `{newMethod: {0,0}, oldMethod: {0,0}}`. -/
def initTally : TallyObj := [("newMethod", ⟨0, 0⟩), ("oldMethod", ⟨0, 0⟩)]

/-- JS property read `obj[k]`: `some` the stored pair, or `none` for
`undefined` when the key is absent. -/
def objGet (obj : TallyObj) (k : String) : Option TallyPair :=
  match obj with
  | [] => none
  | (k2, v) :: rest => if k = k2 then some v else objGet rest k

/-- JS property write `obj[k] = v` (only existing keys are ever written
here). -/
def objSet (obj : TallyObj) (k : String) (v : TallyPair) : TallyObj :=
  match obj with
  | [] => []
  | (k2, v2) :: rest => if k = k2 then (k2, v) :: rest else (k2, v2) :: objSet rest k v

/-- `result[k].correct++` (`field = true`) or `result[k].incorrect++`
(`field = false`): throws a `TypeError` when `result[k]` is `undefined`. -/
def bump (obj : TallyObj) (k : String) (field : Bool) : Except String TallyObj :=
  match objGet obj k with
  | none => Except.error "TypeError: Cannot read properties of undefined"
  | some p =>
    Except.ok (objSet obj k (if field then { p with correct := p.correct + 1 }
                             else { p with incorrect := p.incorrect + 1 }))

/-- One item of a manual-analysis sample file: the human-entered verdicts
(the remaining `ResultRecord` fields are never read by the tally). -/
structure AnalysisItem where
  newAnalysis : String
  oldAnalysis : String
deriving DecidableEq

/-- The body of `for (const item of totalAnalysis)`: tally the new-method
verdict into `result.new`, then the old-method verdict into `result.old`. -/
def tallyStep (obj : TallyObj) (item : AnalysisItem) : Except String TallyObj := do
  let obj ← bump obj "new" (item.newAnalysis == "Correto")
  bump obj "old" (item.oldAnalysis == "Correto")

/-- `countManualAnalysisResults` on the concatenation of all sample files of
all folders (the file reads are external; their parsed contents are the
input). -/
def countManualAnalysisResults (totalAnalysis : List AnalysisItem) :
    Except String TallyObj :=
  List.foldlM tallyStep initTally totalAnalysis

/-! ### Top-level scheduling of the two jobs

The last lines of the source are

```
runJob("pt");
runJob("es");
```

with no `await`/`then` between the calls.  `runJob` is an `async` function:
by the JS semantics a call runs its body synchronously up to the first
`await` (`await csv().fromFile(materials)`) and then returns a pending
promise to the caller, so the top level runs the pt job up to its first
`await`, then immediately runs the es job up to its first `await`, and every
later operation of either job is scheduled afterwards by the event loop in
some order.  The model records the observable operations of `runJob` as a
trace. -/

/-- The two configured jobs, in the order the top level starts them. -/
inductive JobKey where
  | pt
  | es
deriving DecidableEq

/-- Observable operations of `runJob k`, in the order the body performs
them. -/
inductive Op where
  /-- starting `csv().fromFile(materials)` -/
  | readMaterials (k : JobKey)
  /-- the per-row fetch + detect work under `Promise.all` -/
  | fetchDetect (k : JobKey)
  /-- `fs.writeFileSync(output, …)`, the full-results write -/
  | writeResults (k : JobKey)
  /-- the three bucket writes inside `aggregateResults` -/
  | writeAggregates (k : JobKey)
  /-- the three sample writes inside `getSamples` -/
  | writeSamples (k : JobKey)
deriving DecidableEq

/-- The job an operation belongs to. -/
def Op.job : Op → JobKey
  | Op.readMaterials k => k
  | Op.fetchDetect k => k
  | Op.writeResults k => k
  | Op.writeAggregates k => k
  | Op.writeSamples k => k

/-- The synchronous prefix of `runJob k`, up to the first `await`: only the
start of the CSV read happens before control returns to the caller. -/
def runJobFirstSegment (k : JobKey) : List Op := [Op.readMaterials k]

/-- The operations of `runJob k` that run after its first `await`, in
program order. -/
def runJobLaterOps (k : JobKey) : List Op :=
  [Op.fetchDetect k, Op.writeResults k, Op.writeAggregates k, Op.writeSamples k]

/-- The trace of `runJob("pt"); runJob("es");`: the two synchronous prefixes
in call order, then `rest`, the event-loop ordering of everything both jobs
do after their first `await`. -/
def mainTrace (rest : List Op) : List Op :=
  runJobFirstSegment JobKey.pt ++ runJobFirstSegment JobKey.es ++ rest

/-- Which `rest` lists can occur: every operation both jobs still have to do
appears exactly once.  (Real event-loop orderings also preserve each job's
own program order; permutations are a superset of them, which only
strengthens universally quantified statements.) -/
def ValidRest (rest : List Op) : Prop :=
  List.Perm rest (runJobLaterOps JobKey.pt ++ runJobLaterOps JobKey.es)

/-- The property claimed of the program: no operation of the es job is ever
followed by an operation of the pt job (the pt job completes entirely before
the es job begins). -/
def JobSequential (t : List Op) : Prop :=
  t.Pairwise (fun a b => a.job = JobKey.es → b.job ≠ JobKey.pt)

instance (t : List Op) : Decidable (JobSequential t) := by
  unfold JobSequential; infer_instance

/-! ### The concrete end-to-end scenario of the spec

Source row `{id:1, fileurl:"f1", name:"Doc1"}`, two preview pages `"Hello "`
and `"World"`, detection service answering `codex:"en"`, legacy detector
answering `"en"`, job labels current `"pt"`, expected `"es"`. -/

/-- Storage with pages `"Hello "`, `"World"` and nothing further. -/
def scenarioStorage : Nat → FetchResult := fun p =>
  if p = 1 then FetchResult.ok ("Hello ".toList)
  else if p = 2 then FetchResult.ok ("World".toList)
  else FetchResult.noSuchKey

/-- The record the pipeline actually builds in that scenario.  Note the
preview: each page is trimmed of leading/trailing spaces before
concatenation, so the trailing space of `"Hello "` is gone. -/
def scenarioRecord : ResultRecord :=
  { id := "1", name := "Doc1", fileurl := "f1",
    currentLanguage := "pt", expectedLanguage := "es",
    newDetectedLanguage := "en", oldDetectedLanguage := "en",
    textPreviewLength := 10, textPreview := "HelloWorld".toList }

/-- A storage whose very first page is missing (used by witnesses). -/
def emptyStorage : Nat → FetchResult := fun _ => FetchResult.noSuchKey

/-- A storage with an infinite supply of pages whose text is empty (used for
the non-termination half of the termination claim). -/
def blankPagesStorage : Nat → FetchResult := fun _ => FetchResult.ok []

/-! ## Lemmas about the `getTextPreview` loop -/

/-- Both successful exits of the loop return `acc.take MAX_TEXT_LENGTH`, so a
successful result is never longer than the bound. -/
lemma getTextPreviewGo_ok_length (st : Nat → FetchResult) :
    ∀ fuel page acc s p,
      getTextPreviewGo st fuel page acc = some (Except.ok (s, p)) →
      s.length ≤ MAX_TEXT_LENGTH := by
  intro fuel
  induction fuel with
  | zero => intro page acc s p h; simp [getTextPreviewGo] at h
  | succ n ih =>
    intro page acc s p h
    simp only [getTextPreviewGo] at h
    by_cases hlt : acc.length < MAX_TEXT_LENGTH
    · rw [if_pos hlt] at h
      cases hst : st page with
      | ok body => rw [hst] at h; exact ih _ _ _ _ h
      | noSuchKey =>
        rw [hst] at h
        simp only [Option.some.injEq, Except.ok.injEq, Prod.mk.injEq] at h
        rw [← h.1]
        calc (acc.take MAX_TEXT_LENGTH).length = min MAX_TEXT_LENGTH acc.length :=
              List.length_take _ _
          _ ≤ MAX_TEXT_LENGTH := Nat.min_le_left _ _
      | err e => rw [hst] at h; simp at h
    · rw [if_neg hlt] at h
      simp only [Option.some.injEq, Except.ok.injEq, Prod.mk.injEq] at h
      rw [← h.1]
      calc (acc.take MAX_TEXT_LENGTH).length = min MAX_TEXT_LENGTH acc.length :=
            List.length_take _ _
        _ ≤ MAX_TEXT_LENGTH := Nat.min_le_left _ _

/-- A successful exit strictly below the bound can only come from the
`NoSuchKey` branch, and the recorded page is the one whose fetch failed. -/
lemma getTextPreviewGo_short_stop (st : Nat → FetchResult) :
    ∀ fuel page acc s p,
      getTextPreviewGo st fuel page acc = some (Except.ok (s, p)) →
      s.length < MAX_TEXT_LENGTH → st p = FetchResult.noSuchKey := by
  intro fuel
  induction fuel with
  | zero => intro page acc s p h; simp [getTextPreviewGo] at h
  | succ n ih =>
    intro page acc s p h hshort
    simp only [getTextPreviewGo] at h
    by_cases hlt : acc.length < MAX_TEXT_LENGTH
    · rw [if_pos hlt] at h
      cases hst : st page with
      | ok body => rw [hst] at h; exact ih _ _ _ _ h hshort
      | noSuchKey =>
        rw [hst] at h
        simp only [Option.some.injEq, Except.ok.injEq, Prod.mk.injEq] at h
        rw [← h.2]; exact hst
      | err e => rw [hst] at h; simp at h
    · rw [if_neg hlt] at h
      simp only [Option.some.injEq, Except.ok.injEq, Prod.mk.injEq] at h
      exfalso
      rw [← h.1, List.length_take] at hshort
      omega

/-- An error result can only come from the rethrow branch, so some page fetch
produced exactly that error. -/
lemma getTextPreviewGo_error (st : Nat → FetchResult) :
    ∀ fuel page acc e,
      getTextPreviewGo st fuel page acc = some (Except.error e) →
      ∃ q, st q = FetchResult.err e := by
  intro fuel
  induction fuel with
  | zero => intro page acc e h; simp [getTextPreviewGo] at h
  | succ n ih =>
    intro page acc e h
    simp only [getTextPreviewGo] at h
    by_cases hlt : acc.length < MAX_TEXT_LENGTH
    · rw [if_pos hlt] at h
      cases hst : st page with
      | ok body => rw [hst] at h; exact ih _ _ _ h
      | noSuchKey => rw [hst] at h; simp at h
      | err e2 =>
        rw [hst] at h
        simp only [Option.some.injEq, Except.error.injEq] at h
        exact ⟨page, by rw [hst, h]⟩
    · rw [if_neg hlt] at h; simp at h

/-- With a `NoSuchKey` at page `n ≥ page` and fuel beyond `n`, the loop
finishes (by the bound, by an error, or at latest at page `n`). -/
lemma getTextPreviewGo_terminates (st : Nat → FetchResult) (n : Nat)
    (hn : st n = FetchResult.noSuchKey) :
    ∀ fuel page acc, page ≤ n → n < page + fuel →
      (getTextPreviewGo st fuel page acc).isSome := by
  intro fuel
  induction fuel with
  | zero => intro page acc hpn hfuel; omega
  | succ m ih =>
    intro page acc hpn hfuel
    simp only [getTextPreviewGo]
    by_cases hlt : acc.length < MAX_TEXT_LENGTH
    · rw [if_pos hlt]
      cases hst : st page with
      | ok body =>
        have hne : page ≠ n := by intro hpe; rw [hpe, hn] at hst; cases hst
        exact ih (page + 1) _ (by omega) (by omega)
      | noSuchKey => rfl
      | err e => rfl
    · rw [if_neg hlt]; rfl

/-- On the all-blank storage the accumulator never grows (`normalize [] = []`)
and the loop never exits on its own: every amount of fuel is exhausted. -/
lemma getTextPreviewGo_blank (fuel : Nat) :
    ∀ page acc, acc.length < MAX_TEXT_LENGTH →
      getTextPreviewGo blankPagesStorage fuel page acc = none := by
  induction fuel with
  | zero => intro page acc _; rfl
  | succ m ih =>
    intro page acc hlt
    simp only [getTextPreviewGo, if_pos hlt, blankPagesStorage]
    have hnorm : normalize [] = [] := rfl
    rw [hnorm, List.append_nil]
    exact ih _ _ hlt

/-! ## The claims -/

/-- C1.  For every storage backend (hence every file fingerprint) and every
terminating run, the preview string returned by `getTextPreview` is at most
`MAX_TEXT_LENGTH = 24000` characters long: pages are appended only while the
accumulator is below the bound and the final `slice(0, MAX_TEXT_LENGTH)`
truncates any overshoot of the last page. -/
theorem getTextPreview_length_le (st : Nat → FetchResult) (fuel : Nat)
    (s : List Char) (h : getTextPreview st fuel = some (Except.ok s)) :
    s.length ≤ MAX_TEXT_LENGTH := by
  unfold getTextPreview at h
  cases hrun : getTextPreviewRun st fuel with
  | none => rw [hrun] at h; cases h
  | some r =>
    rw [hrun] at h
    cases r with
    | error e => simp [Except.map] at h
    | ok v =>
      simp [Except.map] at h
      rw [← h]
      exact getTextPreviewGo_ok_length st fuel 1 [] v.1 v.2 hrun

/-- Witness for C1: an empty document terminates with fuel 1 and its preview
length 0 is within the bound. -/
theorem getTextPreview_length_le_witness :
    ([] : List Char).length ≤ MAX_TEXT_LENGTH :=
  getTextPreview_length_le emptyStorage 1 [] rfl

/-- C6.  Whenever the run returns a preview strictly shorter than the bound,
the storage reported `NoSuchKey` for the page attempted last (the loop stops
early only on that condition); and when the run propagates an error, some
page fetch produced exactly that error instead of terminating the loop. -/
theorem getTextPreview_short_imp_noSuchKey (st : Nat → FetchResult) (fuel : Nat) :
    (∀ s p, getTextPreviewRun st fuel = some (Except.ok (s, p)) →
       s.length < MAX_TEXT_LENGTH → st p = FetchResult.noSuchKey)
  ∧ (∀ e, getTextPreviewRun st fuel = some (Except.error e) →
       ∃ q, st q = FetchResult.err e) := by
  constructor
  · intro s p h hshort
    exact getTextPreviewGo_short_stop st fuel 1 [] s p h hshort
  · intro e h
    exact getTextPreviewGo_error st fuel 1 [] e h

/-- Witness for C6: on the empty document the run stops at page 1 with an
empty (hence short) preview, and indeed page 1 was reported missing. -/
theorem getTextPreview_short_imp_noSuchKey_witness :
    emptyStorage 1 = FetchResult.noSuchKey :=
  (getTextPreview_short_imp_noSuchKey emptyStorage 1).1 [] 1 rfl (by decide)

/-- C10.  `getTextPreview` terminates whenever the backend reports a missing
page at some index `n ≥ 1` (some fuel returns a result); and termination does
not follow from the length bound alone: on a storage with endless pages whose
normalized text is empty, the loop runs forever (every fuel is exhausted). -/
theorem getTextPreview_terminates_iff_finite (st : Nat → FetchResult) (n : Nat)
    (hn1 : 1 ≤ n) (hn : st n = FetchResult.noSuchKey) :
    (∃ fuel r, getTextPreview st fuel = some r)
  ∧ (∀ fuel, getTextPreview blankPagesStorage fuel = none) := by
  constructor
  · have hsome := getTextPreviewGo_terminates st n hn (n + 1) 1 [] hn1 (by omega)
    obtain ⟨r, hr⟩ := Option.isSome_iff_exists.mp hsome
    exact ⟨n + 1, r.map Prod.fst, by
      unfold getTextPreview getTextPreviewRun
      rw [hr]; rfl⟩
  · intro fuel
    unfold getTextPreview getTextPreviewRun
    rw [getTextPreviewGo_blank fuel 1 [] (by decide)]
    rfl

/-- Witness for C10: the empty document has its missing page at index 1. -/
theorem getTextPreview_terminates_iff_finite_witness :
    (∃ fuel r, getTextPreview emptyStorage fuel = some r)
  ∧ (∀ fuel, getTextPreview blankPagesStorage fuel = none) :=
  getTextPreview_terminates_iff_finite emptyStorage 1 (by decide) rfl

/-- C2.  For every list of records and every pair of job labels (carried in
the records), a projected record is in `sameAsCurrent` iff its new detected
language equals the current language, in `sameAsExpected` iff it equals the
expected language, and in `differentResults` iff it differs from both; the
three filters are independent. -/
theorem aggregateResults_buckets (results : List ResultRecord) (r : NewResult)
    (hmem : r ∈ results.map toNewResult) :
    (r ∈ (aggregateResults results).sameAsCurrent ↔
        r.newDetectedLanguage = r.currentLanguage)
  ∧ (r ∈ (aggregateResults results).sameAsExpected ↔
        r.newDetectedLanguage = r.expectedLanguage)
  ∧ (r ∈ (aggregateResults results).differentResults ↔
        (r.newDetectedLanguage ≠ r.currentLanguage ∧
         r.newDetectedLanguage ≠ r.expectedLanguage)) := by
  unfold aggregateResults
  simp only [List.mem_filter, hmem, true_and, beq_iff_eq, bne_iff_ne, ne_eq,
    Bool.and_eq_true, decide_eq_true_eq]
  refine ⟨⟨fun h => h.symm, fun h => h.symm⟩, ⟨fun h => h.symm, fun h => h.symm⟩, ?_⟩
  constructor
  · intro h
    exact ⟨fun he => h.2 he.symm, fun he => h.1 he.symm⟩
  · intro h
    exact ⟨fun he => h.2 he.symm, fun he => h.1 he.symm⟩

/-- A record used by several witnesses. -/
def witnessRecord : ResultRecord :=
  { id := "9", name := "Doc9", fileurl := "f9",
    currentLanguage := "pt", expectedLanguage := "es",
    newDetectedLanguage := "pt", oldDetectedLanguage := "",
    textPreviewLength := 3, textPreview := "abc".toList }

/-- Witness for C2 on a one-record batch whose detection equals the current
label. -/
theorem aggregateResults_buckets_witness :
    (toNewResult witnessRecord ∈ (aggregateResults [witnessRecord]).sameAsCurrent ↔
        (toNewResult witnessRecord).newDetectedLanguage
          = (toNewResult witnessRecord).currentLanguage)
  ∧ (toNewResult witnessRecord ∈ (aggregateResults [witnessRecord]).sameAsExpected ↔
        (toNewResult witnessRecord).newDetectedLanguage
          = (toNewResult witnessRecord).expectedLanguage)
  ∧ (toNewResult witnessRecord ∈ (aggregateResults [witnessRecord]).differentResults ↔
        ((toNewResult witnessRecord).newDetectedLanguage
            ≠ (toNewResult witnessRecord).currentLanguage ∧
         (toNewResult witnessRecord).newDetectedLanguage
            ≠ (toNewResult witnessRecord).expectedLanguage)) :=
  aggregateResults_buckets [witnessRecord] (toNewResult witnessRecord) (by decide)

/-- C3, counterexample to the claimed preview text: with pages `"Hello "` and
`"World"` the fetched preview is `"HelloWorld"` — the per-page trim removes
the trailing space of `"Hello "` before concatenation — which is not the
claimed `"Hello World"`. -/
theorem scenario_preview_ne_claimed :
    getTextPreview scenarioStorage 3 = some (Except.ok ("HelloWorld".toList))
    ∧ "HelloWorld".toList ≠ "Hello World".toList := ⟨rfl, by decide⟩

/-- C3 amended.  In the spec's scenario A the pipeline produces the record
with `textPreview = "HelloWorld"` (not `"Hello World"`),
`newDetectedLanguage = "en"`, `oldDetectedLanguage = "en"`, and its
six-field projection lands only in the `different` bucket. -/
theorem scenario_record_only_different :
    runJobRow scenarioStorage 3 [⟨"en"⟩] ["en"] "pt" "es" ⟨"1", "f1", "Doc1"⟩
      = some scenarioRecord
    ∧ scenarioRecord.textPreview = "HelloWorld".toList
    ∧ scenarioRecord.newDetectedLanguage = "en"
    ∧ scenarioRecord.oldDetectedLanguage = "en"
    ∧ (aggregateResults [scenarioRecord]).differentResults = [toNewResult scenarioRecord]
    ∧ (aggregateResults [scenarioRecord]).sameAsCurrent = []
    ∧ (aggregateResults [scenarioRecord]).sameAsExpected = [] := by
  exact ⟨by decide, rfl, rfl, rfl, by decide, by decide, by decide⟩

/-- C4, counterexample: even for the event-loop completion most favourable to
the claim — all remaining pt operations before all remaining es operations —
the top-level trace is not job-sequential, because the unawaited call
`runJob("es")` runs its first step before the pt job's awaits resolve. -/
theorem mainTrace_not_sequential :
    ¬ JobSequential (mainTrace (runJobLaterOps JobKey.pt ++ runJobLaterOps JobKey.es)) := by
  decide

/-- C4 amended.  The top level starts the pt job first, but the two `runJob`
calls are not awaited: for every event-loop completion, the es job's first
operation (reading its materials file) happens before all of the pt job's
file writes — the trace begins with the two CSV reads and the pt write only
appears later. -/
theorem es_starts_before_pt_writes (rest : List Op) (h : ValidRest rest) :
    ∃ t2, mainTrace rest
        = Op.readMaterials JobKey.pt :: Op.readMaterials JobKey.es :: t2
      ∧ Op.writeResults JobKey.pt ∈ t2 := by
  refine ⟨rest, rfl, ?_⟩
  have hmem : Op.writeResults JobKey.pt
      ∈ runJobLaterOps JobKey.pt ++ runJobLaterOps JobKey.es := by decide
  exact h.mem_iff.mpr hmem

/-- Witness for C4's amended statement at a concrete completion order. -/
theorem es_starts_before_pt_writes_witness :
    ∃ t2, mainTrace (runJobLaterOps JobKey.pt ++ runJobLaterOps JobKey.es)
        = Op.readMaterials JobKey.pt :: Op.readMaterials JobKey.es :: t2
      ∧ Op.writeResults JobKey.pt ∈ t2 :=
  es_starts_before_pt_writes (runJobLaterOps JobKey.pt ++ runJobLaterOps JobKey.es)
    (List.Perm.refl _)

/-- C7.  For every bucket and every outcome of the random comparator sort
(any permutation of the bucket), `getSample` returns exactly
`min 25 (bucket length)` records, all of them elements of the bucket. -/
theorem getSample_size_and_subset (results shuffled : List NewResult)
    (hperm : List.Perm shuffled results) :
    (getSample shuffled).length = min 25 results.length
  ∧ ∀ r ∈ getSample shuffled, r ∈ results := by
  constructor
  · rw [getSample, List.length_take, hperm.length_eq]
  · intro r hr
    exact hperm.mem_iff.mp ((List.take_sublist 25 shuffled).mem hr)

/-- Witness for C7 on a singleton bucket with the identity shuffle. -/
theorem getSample_size_and_subset_witness :
    (getSample [toNewResult witnessRecord]).length = min 25 [toNewResult witnessRecord].length
  ∧ ∀ r ∈ getSample [toNewResult witnessRecord], r ∈ [toNewResult witnessRecord] :=
  getSample_size_and_subset [toNewResult witnessRecord] [toNewResult witnessRecord]
    (List.Perm.refl _)

/-- Two records that differ only in the three fields dropped by
`aggregateResults`. -/
def c8recA : ResultRecord := witnessRecord

/-- Same as `c8recA` except `fileurl`, `textPreviewLength`, `textPreview`. -/
def c8recB : ResultRecord :=
  { witnessRecord with
    fileurl := "other",
    textPreviewLength := 9,
    textPreview := "different".toList }

/-- C8, counterexample: two full records that differ in `fileurl`,
`textPreviewLength` and `textPreview` produce identical classification
buckets, so a bucket record cannot carry those three of the nine
`ResultRecord` fields. -/
theorem buckets_drop_three_fields :
    aggregateResults [c8recA] = aggregateResults [c8recB]
    ∧ c8recA.fileurl ≠ c8recB.fileurl
    ∧ c8recA.textPreviewLength ≠ c8recB.textPreviewLength
    ∧ c8recA.textPreview ≠ c8recB.textPreview := by
  exact ⟨by decide, by decide, by decide, by decide⟩

/-- C8 amended.  Every record placed in a classification bucket is the
six-field projection of a record of the input batch: it carries `id`,
`name`, `currentLanguage`, `expectedLanguage`, `newDetectedLanguage` and
`oldDetectedLanguage` of the record it was built from, while `fileurl`,
`textPreviewLength` and `textPreview` are dropped by the projection. -/
theorem bucket_records_carry_six_fields (results : List ResultRecord) (b : NewResult)
    (h : b ∈ (aggregateResults results).differentResults ∨
         b ∈ (aggregateResults results).sameAsCurrent ∨
         b ∈ (aggregateResults results).sameAsExpected) :
    ∃ orig ∈ results, b = toNewResult orig ∧ b.id = orig.id ∧ b.name = orig.name
      ∧ b.currentLanguage = orig.currentLanguage
      ∧ b.expectedLanguage = orig.expectedLanguage
      ∧ b.newDetectedLanguage = orig.newDetectedLanguage
      ∧ b.oldDetectedLanguage = orig.oldDetectedLanguage := by
  have hmem : b ∈ results.map toNewResult := by
    rcases h with h | h | h <;> exact List.mem_of_mem_filter h
  obtain ⟨orig, ho, rfl⟩ := List.mem_map.mp hmem
  exact ⟨orig, ho, rfl, rfl, rfl, rfl, rfl, rfl, rfl⟩

/-- Witness for C8's amended statement on a one-record batch. -/
theorem bucket_records_carry_six_fields_witness :
    ∃ orig ∈ [witnessRecord], toNewResult witnessRecord = toNewResult orig
      ∧ (toNewResult witnessRecord).id = orig.id
      ∧ (toNewResult witnessRecord).name = orig.name
      ∧ (toNewResult witnessRecord).currentLanguage = orig.currentLanguage
      ∧ (toNewResult witnessRecord).expectedLanguage = orig.expectedLanguage
      ∧ (toNewResult witnessRecord).newDetectedLanguage = orig.newDetectedLanguage
      ∧ (toNewResult witnessRecord).oldDetectedLanguage = orig.oldDetectedLanguage :=
  bucket_records_carry_six_fields [witnessRecord] (toNewResult witnessRecord)
    (Or.inr (Or.inl (by decide)))

/-- C9 (the code contradicts the intended tally).  The loop body reads
`result.new` and `result.old`, but the `result` object only has the keys
`newMethod` and `oldMethod`, so on any annotated record at all the member
access on `undefined` throws a `TypeError` instead of counting `"Correto"`
verdicts: the tally never completes on nonempty input. -/
theorem countManualAnalysisResults_throws (item : AnalysisItem)
    (rest : List AnalysisItem) :
    countManualAnalysisResults (item :: rest)
      = Except.error "TypeError: Cannot read properties of undefined" := rfl

/-! ## Normalization: idempotence analysis (C5)

Normalization is not idempotent in general: deleting a newline that sits
between two spaces (step 3) creates a double space that only the next pass
would collapse, and deleting a URL up to a space (step 4) can do the same.
It is idempotent on pages free of those two triggers, which the remainder of
this section proves. -/

/-- No carriage-return/newline/tab characters. -/
def NoCtl (l : List Char) : Prop := ∀ c ∈ l, isCtl c = false

/-- No occurrence of the substring `http`. -/
def NoHttp (l : List Char) : Prop := ¬ (['h', 't', 't', 'p'] <:+: l)

/-- No two adjacent spaces. -/
def NoDoubleSpace (l : List Char) : Prop := ¬ ([' ', ' '] <:+: l)

instance (l : List Char) : Decidable (NoCtl l) := by unfold NoCtl; infer_instance

instance (l : List Char) : Decidable (NoHttp l) := by unfold NoHttp; infer_instance

instance (l : List Char) : Decidable (NoDoubleSpace l) := by
  unfold NoDoubleSpace; infer_instance

/-- A prefix is in particular an infix. -/
lemma isInf_of_pre {w l : List Char} (h : w <+: l) : w <:+: l := by
  obtain ⟨t, ht⟩ := h
  exact ⟨[], t, by simp [ht]⟩

/-- ¬-infix predicates transfer down along infixes. -/
lemma noInf_mono {w l₁ l₂ : List Char} (h : l₁ <:+: l₂) (hn : ¬ w <:+: l₂) :
    ¬ w <:+: l₁ :=
  fun hw => hn (hw.trans h)

/-- Every character emitted by the space-collapsing pass is a space or comes
from the input. -/
lemma collapseSpacesAux_mem {c : Char} :
    ∀ {p : Bool} {l : List Char}, c ∈ collapseSpacesAux p l → c = ' ' ∨ c ∈ l := by
  intro p l
  induction l generalizing p with
  | nil => intro h; cases h
  | cons d ds ih =>
    intro h
    by_cases hd : d = ' '
    · subst hd
      cases p with
      | true =>
        simp only [collapseSpacesAux, if_pos rfl] at h
        rcases ih h with h1 | h1
        · exact Or.inl h1
        · exact Or.inr (List.mem_cons_of_mem _ h1)
      | false =>
        simp only [collapseSpacesAux, if_pos rfl] at h
        rcases List.mem_cons.mp h with h1 | h1
        · exact Or.inl h1
        · rcases ih h1 with h2 | h2
          · exact Or.inl h2
          · exact Or.inr (List.mem_cons_of_mem _ h2)
    · simp only [collapseSpacesAux, if_neg hd] at h
      rcases List.mem_cons.mp h with h1 | h1
      · exact Or.inr (h1 ▸ List.mem_cons_self _ _)
      · rcases ih h1 with h2 | h2
        · exact Or.inl h2
        · exact Or.inr (List.mem_cons_of_mem _ h2)

/-- Collapsing spaces never introduces control characters. -/
lemma collapseSpacesAux_noCtl {l : List Char} (h : NoCtl l) (p : Bool) :
    NoCtl (collapseSpacesAux p l) := by
  intro c hc
  rcases collapseSpacesAux_mem hc with h1 | h1
  · subst h1; decide
  · exact h c h1

/-- A space-free prefix of the collapse output (in not-after-space mode) is a
prefix of the input: the pass deletes only spaces that directly follow an
emitted space. -/
lemma spacefree_pre_collapse :
    ∀ (l w : List Char), (∀ c ∈ w, c ≠ ' ') → w <+: collapseSpacesAux false l →
      w <+: l := by
  intro l
  induction l with
  | nil => intro w _ h; exact h
  | cons d ds ih =>
    intro w hw h
    by_cases hd : d = ' '
    · subst hd
      simp only [collapseSpacesAux, if_pos rfl] at h
      cases w with
      | nil => exact List.nil_prefix
      | cons a w' =>
        have ha := (List.cons_prefix_cons.mp h).1
        exact absurd ha (hw a (List.mem_cons_self _ _))
    · simp only [collapseSpacesAux, if_neg hd] at h
      cases w with
      | nil => exact List.nil_prefix
      | cons a w' =>
        obtain ⟨ha, hw'⟩ := List.cons_prefix_cons.mp h
        exact List.cons_prefix_cons.mpr
          ⟨ha, ih w' (fun c hc => hw c (List.mem_cons_of_mem _ hc)) hw'⟩

/-- A nonempty space-free infix of the collapse output is an infix of the
input. -/
lemma spacefree_inf_collapse :
    ∀ (l w : List Char), (∀ c ∈ w, c ≠ ' ') → w ≠ [] →
      ∀ p, w <:+: collapseSpacesAux p l → w <:+: l := by
  intro l
  induction l with
  | nil =>
    intro w _ hne p h
    cases p <;> exact absurd (List.infix_nil.mp h) hne
  | cons d ds ih =>
    intro w hw hne p h
    by_cases hd : d = ' '
    · subst hd
      cases p with
      | true =>
        simp only [collapseSpacesAux, if_pos rfl] at h
        exact List.infix_cons_iff.mpr (Or.inr (ih w hw hne true h))
      | false =>
        simp only [collapseSpacesAux, if_pos rfl] at h
        rcases List.infix_cons_iff.mp h with h1 | h1
        · cases w with
          | nil => exact absurd rfl hne
          | cons a w' =>
            have ha := (List.cons_prefix_cons.mp h1).1
            exact absurd ha (hw a (List.mem_cons_self _ _))
        · exact List.infix_cons_iff.mpr (Or.inr (ih w hw hne true h1))
    · simp only [collapseSpacesAux, if_neg hd] at h
      rcases List.infix_cons_iff.mp h with h1 | h1
      · cases w with
        | nil => exact absurd rfl hne
        | cons a w' =>
          obtain ⟨ha, hw'⟩ := List.cons_prefix_cons.mp h1
          refine List.infix_cons_iff.mpr (Or.inl (List.cons_prefix_cons.mpr ⟨ha, ?_⟩))
          exact spacefree_pre_collapse ds w'
            (fun c hc => hw c (List.mem_cons_of_mem _ hc)) hw'
      · exact List.infix_cons_iff.mpr (Or.inr (ih w hw hne false h1))

/-- Collapsing spaces cannot create an occurrence of `http`. -/
lemma collapseSpaces_noHttp {l : List Char} (h : NoHttp l) :
    NoHttp (collapseSpaces l) := by
  intro hc
  exact h (spacefree_inf_collapse l ['h', 't', 't', 'p'] (by decide) (by decide) false hc)

/-- In after-space mode the collapse output never starts with a space. -/
lemma collapseSpacesAux_true_head :
    ∀ l : List Char, (collapseSpacesAux true l).head? ≠ some ' ' := by
  intro l
  induction l with
  | nil => intro h; cases h
  | cons d ds ih =>
    by_cases hd : d = ' '
    · subst hd; simpa [collapseSpacesAux] using ih
    · simp [collapseSpacesAux, hd]

/-- The collapse output never contains two adjacent spaces. -/
lemma collapseSpacesAux_nds : ∀ (l : List Char) (p : Bool),
    NoDoubleSpace (collapseSpacesAux p l) := by
  intro l
  induction l with
  | nil => intro p h; cases p <;> simpa using List.infix_nil.mp h
  | cons d ds ih =>
    intro p h
    by_cases hd : d = ' '
    · subst hd
      cases p with
      | true =>
        simp only [collapseSpacesAux, if_pos rfl] at h
        exact ih true h
      | false =>
        simp only [collapseSpacesAux, if_pos rfl] at h
        rcases List.infix_cons_iff.mp h with h1 | h1
        · have h2 := (List.cons_prefix_cons.mp h1).2
          cases hx : collapseSpacesAux true ds with
          | nil => rw [hx] at h2; simpa using List.prefix_nil.mp h2
          | cons b bs =>
            rw [hx] at h2
            have hb := (List.cons_prefix_cons.mp h2).1
            have := collapseSpacesAux_true_head ds
            rw [hx] at this
            exact this (by rw [← hb]; rfl)
        · exact ih true h1
    · simp only [collapseSpacesAux, if_neg hd] at h
      rcases List.infix_cons_iff.mp h with h1 | h1
      · exact hd (List.cons_prefix_cons.mp h1).1.symm
      · exact ih false h1

/-- On input with no adjacent spaces the collapse pass is the identity (in
after-space mode additionally when the input does not start with a space). -/
lemma collapseSpacesAux_eq_self :
    ∀ l : List Char, NoDoubleSpace l →
      collapseSpacesAux false l = l
      ∧ (l.head? ≠ some ' ' → collapseSpacesAux true l = l) := by
  intro l
  induction l with
  | nil => exact fun _ => ⟨rfl, fun _ => rfl⟩
  | cons d ds ih =>
    intro h
    have hds : NoDoubleSpace ds :=
      noInf_mono (List.infix_cons_iff.mpr (Or.inr (List.infix_refl ds))) h
    obtain ⟨ihf, iht⟩ := ih hds
    by_cases hd : d = ' '
    · subst hd
      have hhead : ds.head? ≠ some ' ' := by
        intro hh
        cases ds with
        | nil => cases hh
        | cons b bs =>
          have hb : b = ' ' := by simpa using hh
          subst hb
          exact h (isInf_of_pre (List.cons_prefix_cons.mpr
            ⟨rfl, List.cons_prefix_cons.mpr ⟨rfl, List.nil_prefix⟩⟩))
      constructor
      · show ' ' :: collapseSpacesAux true ds = ' ' :: ds
        rw [iht hhead]
      · intro hh
        exact absurd (show (' ' :: ds).head? = some ' ' from rfl) hh
    · constructor
      · simp only [collapseSpacesAux, if_neg hd]
        rw [ihf]
      · intro _
        simp only [collapseSpacesAux, if_neg hd]
        rw [ihf]

/-- The trim output is a prefix of the input with its leading spaces
removed. -/
lemma trimSpaces_pre (s : List Char) : trimSpaces s <+: s.dropWhile (· = ' ') := by
  obtain ⟨u, hu⟩ := List.dropWhile_suffix (l := (s.dropWhile (· = ' ')).reverse) (· = ' ')
  refine ⟨u.reverse, ?_⟩
  calc trimSpaces s ++ u.reverse
      = (u ++ (s.dropWhile (· = ' ')).reverse.dropWhile (· = ' ')).reverse := by
        rw [List.reverse_append]; rfl
    _ = s.dropWhile (· = ' ') := by rw [hu, List.reverse_reverse]

/-- The trim output is an infix of the input. -/
lemma trimSpaces_inf (s : List Char) : trimSpaces s <:+: s := by
  obtain ⟨a, ha⟩ := List.dropWhile_suffix (l := s) (· = ' ')
  obtain ⟨b, hb⟩ := trimSpaces_pre s
  refine ⟨a, b, ?_⟩
  rw [List.append_assoc, hb]
  exact ha

/-- `dropWhile` is idempotent. -/
lemma dropWhile_sp_idem (p : Char → Bool) (l : List Char) :
    (l.dropWhile p).dropWhile p = l.dropWhile p := by
  induction l with
  | nil => rfl
  | cons c cs ih =>
    by_cases hc : p c
    · simp [List.dropWhile_cons, hc, ih]
    · simp [List.dropWhile_cons, hc]

/-- A prefix of a `dropWhile` fixed point is a `dropWhile` fixed point. -/
lemma dropWhile_eq_self_of_pre (p : Char → Bool) {l w : List Char}
    (hl : l.dropWhile p = l) (hw : w <+: l) : w.dropWhile p = w := by
  cases w with
  | nil => rfl
  | cons d w' =>
    obtain ⟨t, ht⟩ := hw
    have hd : p d = false := by
      by_contra hcon
      have hpd : p d = true := by
        cases hpd : p d with
        | true => rfl
        | false => exact absurd hpd hcon
      have hlen : l.length ≤ (w' ++ t).length := by
        conv_lhs => rw [← hl, ← ht]
        calc ((d :: w' ++ t).dropWhile p).length
            = ((w' ++ t).dropWhile p).length := by
              rw [List.cons_append, List.dropWhile_cons, if_pos hpd]
          _ ≤ (w' ++ t).length := (List.dropWhile_suffix p).sublist.length_le
      rw [← ht] at hlen
      simp at hlen
    rw [List.dropWhile_cons, hd]
    simp

/-- Trimming is idempotent. -/
lemma trimSpaces_idem (s : List Char) : trimSpaces (trimSpaces s) = trimSpaces s := by
  have hA : (trimSpaces s).dropWhile (· = ' ') = trimSpaces s :=
    dropWhile_eq_self_of_pre (· = ' ') (dropWhile_sp_idem (· = ' ') s) (trimSpaces_pre s)
  show (((trimSpaces s).dropWhile (· = ' ')).reverse.dropWhile (· = ' ')).reverse
      = trimSpaces s
  rw [hA]
  show ((((s.dropWhile (· = ' ')).reverse.dropWhile (· = ' ')).reverse).reverse.dropWhile
      (· = ' ')).reverse = trimSpaces s
  rw [List.reverse_reverse, dropWhile_sp_idem]
  rfl

/-- Infixes inherit the absence of control characters. -/
lemma noCtl_of_inf {l₁ l₂ : List Char} (h : l₁ <:+: l₂) (hc : NoCtl l₂) : NoCtl l₁ :=
  fun c hch => hc c (h.sublist.subset hch)

/-- On control-free input step 3 is the identity. -/
lemma removeCtl_eq_self {l : List Char} (h : NoCtl l) : removeCtl l = l :=
  List.filter_eq_self.mpr (fun c hc => by rw [h c hc]; rfl)

/-- `urlMatch` fails whenever the input does not literally start with
`http`. -/
lemma urlMatch_none {l : List Char} (h : ¬ (['h', 't', 't', 'p'] <+: l)) :
    urlMatch l = none := by
  unfold urlMatch
  split
  · next rest => exact absurd ⟨rest, rfl⟩ h
  · rfl

/-- On input with no occurrence of `http` step 4 is the identity, whatever
the fuel. -/
lemma stripUrlsAux_eq_self : ∀ (fuel : Nat) (l : List Char), NoHttp l →
    stripUrlsAux fuel l = l := by
  intro fuel
  induction fuel with
  | zero => intro l _; cases l <;> rfl
  | succ m ih =>
    intro l hl
    cases l with
    | nil => rfl
    | cons c cs =>
      have hnone : urlMatch (c :: cs) = none :=
        urlMatch_none (fun hp => hl (isInf_of_pre hp))
      have hcs : NoHttp cs :=
        noInf_mono (List.infix_cons_iff.mpr (Or.inr (List.infix_refl cs))) hl
      calc stripUrlsAux (m + 1) (c :: cs)
          = c :: stripUrlsAux m cs := by
            simp only [stripUrlsAux, hnone]
        _ = c :: cs := by rw [ih cs hcs]

/-- On input with no occurrence of `http` step 4 is the identity. -/
lemma stripUrls_eq_self {l : List Char} (h : NoHttp l) : stripUrls l = l :=
  stripUrlsAux_eq_self _ _ h

/-- On control-free, `http`-free input, normalization is collapse-then-trim:
steps 3 and 4 find nothing to do. -/
lemma normalize_eq_trim_collapse {s : List Char} (h1 : NoCtl s) (h2 : NoHttp s) :
    normalize s = trimSpaces (collapseSpaces s) := by
  have hc1 : NoCtl (trimSpaces (collapseSpaces s)) :=
    noCtl_of_inf (trimSpaces_inf _) (collapseSpacesAux_noCtl h1 false)
  have hc2 : NoHttp (trimSpaces (collapseSpaces s)) :=
    noInf_mono (trimSpaces_inf _) (collapseSpaces_noHttp h2)
  unfold normalize
  rw [removeCtl_eq_self hc1, stripUrls_eq_self hc2]

/-- C5, counterexample: normalization is not idempotent.  On `"a \n b"` the
newline deletion of step 3 joins the two spaces around it into a double
space, which a second normalization collapses: one pass gives `"a  b"`, two
passes give `"a b"`. -/
theorem normalize_not_idempotent :
    normalize (normalize ("a \n b".toList)) ≠ normalize ("a \n b".toList) := by
  decide

/-- C5 amended.  Normalization is idempotent on every string that contains
no carriage-return/newline/tab character and no occurrence of `http` (the
two triggers through which one pass can create new space runs). -/
theorem normalize_idem (s : List Char) (h1 : NoCtl s) (h2 : NoHttp s) :
    normalize (normalize s) = normalize s := by
  have hstep : normalize s = trimSpaces (collapseSpaces s) :=
    normalize_eq_trim_collapse h1 h2
  have hc1 : NoCtl (normalize s) := by
    rw [hstep]
    exact noCtl_of_inf (trimSpaces_inf _) (collapseSpacesAux_noCtl h1 false)
  have hc2 : NoHttp (normalize s) := by
    rw [hstep]
    exact noInf_mono (trimSpaces_inf _) (collapseSpaces_noHttp h2)
  have hnds : NoDoubleSpace (normalize s) := by
    rw [hstep]
    exact noInf_mono (trimSpaces_inf _) (collapseSpacesAux_nds _ false)
  have hcollapse : collapseSpaces (normalize s) = normalize s :=
    (collapseSpacesAux_eq_self _ hnds).1
  rw [normalize_eq_trim_collapse hc1 hc2, hcollapse, hstep, trimSpaces_idem]

/-- Witness for C5's amended statement on a control-free, URL-free page. -/
theorem normalize_idem_witness :
    normalize (normalize ("hola  mundo ".toList)) = normalize ("hola  mundo ".toList) :=
  normalize_idem ("hola  mundo ".toList) (by decide) (by decide)

end PdLangClassifier
